import Mathlib

/-!
Shallow embedding of the schedule-extraction core of src/bot.py
(mguu-schedule-bot).  The document handed to parse_schedule is modelled as
the flattened sequence of its text nodes in traversal order (a List String);
a date anchor is a node whose text contains a valid date, and the window of
an anchor consists of the nodes strictly between it and the next anchor
node.  Machine strings are List Char based; the Python regular expressions
DATE_RE, PAIR_RE and TIME_RE are embedded as explicit leftmost-match
scanners.  Character classes cover ASCII and the Cyrillic block, which is
the alphabet the source patterns and keywords use.
-/

namespace MguuBot

/-- Whitespace as stripped and split by the Python str helpers (core set). -/
def pyIsWs (c : Char) : Bool :=
  c == ' ' || c == '\t' || c == '\n' || c == '\r' || c == '\x0b' || c == '\x0c'

/-- ASCII decimal digit, the class matched by the patterns of bot.py. -/
def pyIsDigit (c : Char) : Bool :=
  '0' ≤ c && c ≤ '9'

/-- Word character for the word boundary of DATE_RE: ASCII alphanumerics,
underscore, and the Cyrillic block U+0400..U+04FF. -/
def isWordChar (c : Char) : Bool :=
  ('a' ≤ c && c ≤ 'z') || ('A' ≤ c && c ≤ 'Z') || pyIsDigit c || c == '_' ||
    ('Ѐ' ≤ c && c ≤ 'ӿ')

/-- Lower-casing as used by str.lower on the alphabets that occur in the
source: ASCII letters and the Cyrillic letters А..Я and Ё. -/
def pyLowerChar (c : Char) : Char :=
  if 'A' ≤ c && c ≤ 'Z' then Char.ofNat (c.toNat + 32)
  else if 'А' ≤ c && c ≤ 'Я' then Char.ofNat (c.toNat + 32)
  else if c == 'Ё' then 'ё'
  else c

/-- Lower-case every character of a string. -/
def pyLowerStr (s : String) : String :=
  String.mk (s.data.map pyLowerChar)

/-- Bool test that a list of characters starts with the given pattern,
modelling str.startswith. -/
def hasPre : List Char → List Char → Bool
  | [], _ => true
  | _ :: _, [] => false
  | p :: ps, c :: cs => p == c && hasPre ps cs

/-- Bool test that the pattern occurs as a contiguous substring, modelling
the Python containment operator on strings. -/
def hasSub (n : List Char) : List Char → Bool
  | [] => hasPre n []
  | c :: cs => hasPre n (c :: cs) || hasSub n cs

/-- Membership of a single character in a string, modelling sep in s. -/
def hasChar (c : Char) (s : String) : Bool :=
  s.data.any (fun x => x == c)

/-- Strip leading and trailing whitespace, modelling str.strip. -/
def pyStrip (l : List Char) : List Char :=
  ((l.dropWhile pyIsWs).reverse.dropWhile pyIsWs).reverse

/-- Accumulator pass splitting a character list into maximal non-whitespace
words, modelling str.split with no argument. -/
def wordsAux : List Char → List Char → List (List Char)
  | acc, [] => if acc.isEmpty then [] else [acc.reverse]
  | acc, c :: cs =>
    if pyIsWs c then
      if acc.isEmpty then wordsAux [] cs else acc.reverse :: wordsAux [] cs
    else wordsAux (c :: acc) cs

/-- Whitespace-separated words of a character list. -/
def pyWords (l : List Char) : List (List Char) :=
  wordsAux [] l

/-- Join word lists with single spaces, modelling the space join of bot.py
line normalisation. -/
def joinSpace : List (List Char) → List Char
  | [] => []
  | [w] => w
  | w :: ws => w ++ ' ' :: joinSpace ws

/-- Normalise one raw line: strip, split on whitespace, rejoin with single
spaces, as in clean_lines of bot.py. -/
def normLine (raw : List Char) : List Char :=
  joinSpace (pyWords (pyStrip raw))

/-- Line break characters recognised by str.splitlines. -/
def isBreakChar (c : Char) : Bool :=
  c == '\n' || c == '\r' || c == '\x0b' || c == '\x0c' ||
    c == '\x1c' || c == '\x1d' || c == '\x1e' || c == '\u0085' ||
    c == ' ' || c == ' '

/-- Accumulator pass for str.splitlines, treating a carriage return and
line feed pair as a single break and emitting no trailing empty line. -/
def splitLinesAux : List Char → List Char → List (List Char)
  | acc, [] => if acc.isEmpty then [] else [acc.reverse]
  | acc, '\r' :: '\n' :: cs => acc.reverse :: splitLinesAux [] cs
  | acc, c :: cs =>
    if isBreakChar c then acc.reverse :: splitLinesAux [] cs
    else splitLinesAux (c :: acc) cs

/-- Split a string into its lines, modelling str.splitlines. -/
def pySplitLines (s : String) : List (List Char) :=
  splitLinesAux [] s.data

/-- Embedding of clean_lines of bot.py: split into lines, collapse internal
whitespace, drop empty lines. -/
def clean_lines (text : String) : List String :=
  (pySplitLines text).filterMap (fun raw =>
    let t := normLine raw
    if t.isEmpty then none else some (String.mk t))

/-- Remainder of the list after the first occurrence of the separator, or
none when the separator does not occur. -/
def afterFirstAux (sep : Char) : List Char → Option (List Char)
  | [] => none
  | c :: cs => if c == sep then some cs else afterFirstAux sep cs

/-- Embedding of the Python one-split idiom s.split lifted to take the last
piece: the text after the first separator, or the whole list when the
separator is absent. -/
def afterFirst (sep : Char) (l : List Char) : List Char :=
  (afterFirstAux sep l).getD l

/-- Skip a maximal run of whitespace, the backslash-s-star of the regular
expressions. -/
def skipWs (l : List Char) : List Char :=
  l.dropWhile pyIsWs

/-- Match a literal pattern case-insensitively at the head of the input,
returning the rest; the pattern is given lower-cased. -/
def stripLitCi : List Char → List Char → Option (List Char)
  | [], l => some l
  | _ :: _, [] => none
  | p :: ps, c :: cs => if pyLowerChar c == p then stripLitCi ps cs else none

/-- Numeric value of an ASCII digit character. -/
def dval (c : Char) : Nat :=
  c.toNat - 48

/-- Try to match DATE_RE at the head of the input, returning day, month and
year; the trailing word boundary is checked against the rest. -/
def dateMatchAt (l : List Char) : Option (Nat × Nat × Nat) :=
  match l with
  | d1 :: d2 :: p1 :: m1 :: m2 :: p2 :: y1 :: y2 :: y3 :: y4 :: rest =>
    if pyIsDigit d1 && pyIsDigit d2 && p1 == '.' && pyIsDigit m1 &&
        pyIsDigit m2 && p2 == '.' && pyIsDigit y1 && pyIsDigit y2 &&
        pyIsDigit y3 && pyIsDigit y4 &&
        (match rest with | [] => true | c :: _ => !isWordChar c) then
      some (dval d1 * 10 + dval d2, dval m1 * 10 + dval m2,
        ((dval y1 * 10 + dval y2) * 10 + dval y3) * 10 + dval y4)
    else none
  | _ => none

/-- Leftmost-match scan for DATE_RE; the Bool records whether the current
position sits at a word boundary on the left. -/
def dateSearchAux : Bool → List Char → Option (Nat × Nat × Nat)
  | _, [] => none
  | bOK, c :: cs =>
    match (if bOK then dateMatchAt (c :: cs) else none) with
    | some r => some r
    | none => dateSearchAux (!isWordChar c) cs

/-- Embedding of DATE_RE search: first day.month.year token at a word
boundary, returned as day, month, year. -/
def dateSearch (l : List Char) : Option (Nat × Nat × Nat) :=
  dateSearchAux true l

/-- Try to match PAIR_RE at the head of the input, returning the captured
digit run. -/
def pairMatchAt (l : List Char) : Option (List Char) :=
  match l with
  | [] => none
  | c :: cs =>
    if c == '№' then
      match stripLitCi [ 'п', 'а', 'р', 'ы' ] (skipWs cs) with
      | none => none
      | some r2 =>
        match skipWs r2 with
        | [] => none
        | d :: r4 =>
          if d == '-' || d == '–' then
            let ds := (skipWs r4).takeWhile pyIsDigit
            if ds.isEmpty then none else some ds
          else none
    else none

/-- Leftmost-match scan for PAIR_RE over a line. -/
def pairSearch : List Char → Option (List Char)
  | [] => none
  | c :: cs =>
    match pairMatchAt (c :: cs) with
    | some r => some r
    | none => pairSearch cs

/-- Parse one clock value of TIME_RE, one or two digit hour, colon, two
digit minutes, greedy on the hour; the two alternatives exclude each other
because the second character cannot be both a digit and a colon. -/
def hmParse (l : List Char) : Option (List Char × List Char) :=
  match l with
  | a :: b :: rest =>
    if pyIsDigit a then
      if pyIsDigit b then
        match rest with
        | ':' :: d :: e :: r2 =>
          if pyIsDigit d && pyIsDigit e then some ([a, b, ':', d, e], r2)
          else none
        | _ => none
      else if b == ':' then
        match rest with
        | d :: e :: r2 =>
          if pyIsDigit d && pyIsDigit e then some ([a, ':', d, e], r2)
          else none
        | _ => none
      else none
    else none
  | _ => none

/-- Try to match TIME_RE at the head of the input, returning both captured
clock values. -/
def timeMatchAt (l : List Char) : Option (List Char × List Char) :=
  match hmParse l with
  | none => none
  | some (g1, r1) =>
    match skipWs r1 with
    | [] => none
    | d :: r2 =>
      if d == '-' || d == '–' then
        match hmParse (skipWs r2) with
        | some (g2, _) => some (g1, g2)
        | none => none
      else none

/-- Leftmost-match scan for TIME_RE over a line. -/
def timeSearch : List Char → Option (List Char × List Char)
  | [] => none
  | c :: cs =>
    match timeMatchAt (c :: cs) with
    | some r => some r
    | none => timeSearch cs

/-- Calendar date as produced by the datetime.date constructor. -/
structure PDate where
  year : Nat
  month : Nat
  day : Nat
deriving DecidableEq, Repr

/-- Proleptic Gregorian leap year test of the datetime module. -/
def isLeapYear (y : Nat) : Bool :=
  y % 4 == 0 && (y % 100 != 0 || y % 400 == 0)

/-- Number of days of a month, as enforced by the datetime.date
constructor. -/
def daysInMonth (y m : Nat) : Nat :=
  if m == 2 then (if isLeapYear y then 29 else 28)
  else if m == 4 || m == 6 || m == 9 || m == 11 then 30
  else 31

/-- Validity test the datetime.date constructor applies; outside this range
the constructor raises and bot.py returns none. -/
def isRealDate (y m d : Nat) : Bool :=
  1 ≤ y && y ≤ 9999 && 1 ≤ m && m ≤ 12 && 1 ≤ d && d ≤ daysInMonth y m

/-- Embedding of parse_date of bot.py: first DATE_RE match of the string,
validated as a calendar date; no match or an invalid date gives none. -/
def parse_date (s : String) : Option PDate :=
  match dateSearch s.data with
  | none => none
  | some (dd, mm, yy) =>
    if isRealDate yy mm dd then some ⟨yy, mm, dd⟩ else none

/-- Lesson record of bot.py. -/
structure Lesson where
  day : PDate
  pair : String
  time : String
  subject : String
  teacher : String
  room : String
  lesson_type : String
deriving DecidableEq, Repr

/-- Mutable field state of the classification loop of
extract_lesson_from_block, before the room fallback and type cleanup. -/
structure CFields where
  subject : String
  teacher : String
  room : String
  ltype : String
deriving DecidableEq, Repr

/-- Keyword set of the lesson-type rule of bot.py. -/
def typeKeywords : List String :=
  [ "практич", "лекци", "семинар", "лаборатор", "зачет", "зачёт", "экзам" ]

/-- Patronymic-suffix substrings of the teacher heuristic of bot.py. -/
def teacherSuffixes : List String :=
  [ "вна", "овна", "евна", "ич", "вич" ]

/-- Strip the text after the first colon, the Python split-colon-once
idiom used by the teacher and type rules. -/
def afterColonStrip (ln : String) : String :=
  String.mk (pyStrip (afterFirst ':' ln.data))

/-- One iteration of the field-classification loop of
extract_lesson_from_block, lines 144-177 of bot.py, applied to the state
and the current line. -/
def classifyLine (st : CFields) (ln : String) : CFields :=
  let low := pyLowerStr ln
  if (pairSearch ln.data).isSome || (timeSearch ln.data).isSome then st
  else if hasPre [ 'а', 'у', 'д' ] low.data ||
      hasSub [ 'а', 'у', 'д', '.' ] low.data then
    let v : String :=
      if hasChar '.' ln then String.mk (pyStrip (afterFirst '.' ln.data))
      else ln
    { st with room := if v ≠ "" then v else ln }
  else if typeKeywords.any (fun x => hasSub x.data low.data) then
    if hasChar ':' ln && hasPre [ 'т', 'и', 'п' ] low.data then
      { st with ltype := afterColonStrip ln }
    else { st with ltype := ln }
  else if st.teacher == "" &&
      (hasPre [ 'п', 'р', 'е', 'п' ] low.data ||
        hasSub [ 'п', 'р', 'е', 'п' ] low.data) then
    { st with teacher := if hasChar ':' ln then afterColonStrip ln else ln }
  else if st.teacher == "" && decide (2 ≤ (pyWords ln.data).length) &&
      teacherSuffixes.any (fun suf => hasSub suf.data low.data) then
    { st with teacher := ln }
  else if st.subject == "" then { st with subject := ln }
  else st

/-- Full classification loop over the lines of a block. -/
def classifyAll (lines : List String) : CFields :=
  lines.foldl classifyLine ⟨"", "", "", ""⟩

/-- Format of the time field built by bot.py from a TIME_RE match: both
clock values joined by an en dash. -/
def fmtTime (p : List Char × List Char) : String :=
  String.mk (p.1 ++ '–' :: p.2)

/-- One iteration of the pair and time loop of extract_lesson_from_block,
lines 135-141 of bot.py: a matching line overwrites the field, so the last
matching line wins. -/
def ptStep (pt : String × String) (ln : String) : String × String :=
  let p := match pairSearch ln.data with
    | some ds => String.mk (pyStrip ds)
    | none => pt.1
  let t := match timeSearch ln.data with
    | some g => fmtTime g
    | none => pt.2
  (p, t)

/-- Pair and time extraction loop over the lines of a block. -/
def extractPT (lines : List String) : String × String :=
  lines.foldl ptStep ("", "")

/-- Room fallback of bot.py, lines 180-184: first line containing the
room token together with a digit. -/
def roomFallback (lines : List String) : String :=
  match lines.find? (fun ln =>
      hasSub [ 'а', 'у', 'д' ] (pyLowerStr ln).data &&
        ln.data.any pyIsDigit) with
  | some ln => ln
  | none => ""

/-- Type cleanup of bot.py, lines 187-188: strip a leading type label. -/
def ltypeCleanup (lt : String) : String :=
  if hasPre [ 'т', 'и', 'п' ] (pyLowerStr lt).data then
    if hasChar ':' lt then afterColonStrip lt else lt
  else lt

/-- Embedding of extract_lesson_from_block of bot.py. -/
def extract_lesson_from_block (block_text : String) (current_day : PDate) :
    Option Lesson :=
  let lines := clean_lines block_text
  if lines.isEmpty then none
  else
    let pt := extractPT lines
    let f := classifyAll lines
    let room2 := if f.room == "" then roomFallback lines else f.room
    let lt := ltypeCleanup f.ltype
    if f.subject == "" && f.teacher == "" && room2 == "" && lt == "" then
      none
    else
      some ⟨current_day, pt.1, pt.2, f.subject, f.teacher, room2, lt⟩

/-- Sort key of parse_schedule: the integer value of the pair field when it
is a non-empty digit string, 999 otherwise, as the int conversion with the
broad exception handler computes. -/
def sortKeyFn (x : Lesson) : Nat :=
  if !x.pair.data.isEmpty && x.pair.data.all pyIsDigit then
    x.pair.data.foldl (fun n c => n * 10 + dval c) 0
  else 999

/-- Stable insertion of a lesson before the first entry with a key not
smaller than its own, the placement the stable Python sort gives to an
element that precedes the rest in discovery order. -/
def insertSorted (x : Lesson) : List Lesson → List Lesson
  | [] => [x]
  | y :: ys =>
    if sortKeyFn x ≤ sortKeyFn y then x :: y :: ys
    else y :: insertSorted x ys

/-- Stable sort by sortKeyFn, extensionally the Python list sort with that
key. -/
def sortByKey : List Lesson → List Lesson
  | [] => []
  | x :: xs => insertSorted x (sortByKey xs)

/-- Date nodes of the document: every node whose text parses to a date,
with the position of the node, in document order; this embeds the find_all
loop of parse_schedule, lines 208-216 of bot.py. -/
def dateNodes (doc : List String) : List (PDate × Nat) :=
  doc.enum.filterMap (fun p => (parse_date p.2).map (fun d => (d, p.1)))

/-- Deduplication loop of parse_schedule, lines 219-225 of bot.py: keep
the first node of every date, in order, tracking the dates already seen. -/
def dedupFirstAux : List PDate → List (PDate × Nat) → List (PDate × Nat)
  | _, [] => []
  | seen, x :: xs =>
    if x.1 ∈ seen then dedupFirstAux seen xs
    else x :: dedupFirstAux (x.1 :: seen) xs

/-- Anchors of the document: date nodes deduplicated by date, first
occurrence kept. -/
def dedupFirst (l : List (PDate × Nat)) : List (PDate × Nat) :=
  dedupFirstAux [] l

/-- Nodes strictly between position i and the stop position, the window
the find_next walk of parse_schedule visits for one anchor. -/
def windowOf (doc : List String) (i stop : Nat) : List String :=
  (doc.take stop).drop (i + 1)

/-- Marker filter of parse_schedule, line 248 of bot.py: a node is a block
when its text contains the period marker. -/
def isBlockText (t : String) : Bool :=
  hasSub [ '№', ' ', 'п', 'а', 'р', 'ы' ] t.data ||
    hasSub [ '№', 'п', 'а', 'р', 'ы' ] t.data

/-- Blocks of one anchor window. -/
def blocksOf (doc : List String) (i stop : Nat) : List String :=
  (windowOf doc i stop).filter isBlockText

/-- Lessons assembled from the blocks of one window, in discovery order. -/
def rawLessons (doc : List String) (d : PDate) (i stop : Nat) :
    List Lesson :=
  (blocksOf doc i stop).filterMap
    (fun b => extract_lesson_from_block b d)

/-- Sorted lesson list stored for one anchor. -/
def lessonsFor (doc : List String) (d : PDate) (i stop : Nat) :
    List Lesson :=
  sortByKey (rawLessons doc d i stop)

/-- Per-anchor loop of parse_schedule, lines 231-265 of bot.py: each
anchor owns the window up to the next anchor node, or to the end of the
document for the last anchor; the resulting entry is stored
unconditionally. -/
def buildSchedule (doc : List String) :
    List (PDate × Nat) → List (PDate × List Lesson)
  | [] => []
  | (d, i) :: rest =>
    let stop := match rest with | (_, j) :: _ => j | [] => doc.length
    (d, lessonsFor doc d i stop) :: buildSchedule doc rest

/-- Embedding of parse_schedule of bot.py over the flattened node list. -/
def parse_schedule (doc : List String) : List (PDate × List Lesson) :=
  buildSchedule doc (dedupFirst (dateNodes doc))

/-! Definitions written from the wording of the specification, used to
compare the stated behaviour with the behaviour of the embedded code. -/

/-- Suffix test on character lists, for the spec wording about a token
that ends in a patronymic suffix. -/
def hasSuf (suf l : List Char) : Bool :=
  hasPre suf.reverse l.reverse

/-- Spec wording of claim C5: some whitespace-separated token of the line
ends in one of the recognized patronymic suffixes, case-insensitively. -/
def specTokenEndsWithPatronymic (ln : String) : Bool :=
  (pyWords (pyLowerStr ln).data).any (fun w =>
    teacherSuffixes.any (fun suf => hasSuf suf.data w))

/-- Remainder after the first period or colon, for the spec wording of
claim C6 about the room separator. -/
def specSepAfter : List Char → Option (List Char)
  | [] => none
  | c :: cs => if c == '.' || c == ':' then some cs else specSepAfter cs

/-- Spec wording of claim C6: the room value is the text after the first
period or colon separator, or the whole line when the line contains
neither. -/
def specRoomValueC6 (ln : String) : String :=
  match specSepAfter ln.data with
  | some r => String.mk (pyStrip r)
  | none => ln

/-- Spec wording of claim C7: the time of a block is the line immediately
following the period-marker line when that line matches the time-range
pattern, and empty otherwise. -/
def specC7TimeOf : List String → String
  | [] => ""
  | ln :: rest =>
    if (pairSearch ln.data).isSome then
      match rest with
      | [] => ""
      | nxt :: _ =>
        match timeSearch nxt.data with
        | some g => fmtTime g
        | none => ""
    else specC7TimeOf rest

/-- Spec wording of claim C2: the pair field parses as an integer, which
for the digit-run capture of PAIR_RE means a non-empty digit string. -/
def specPairNumeric (s : String) : Bool :=
  !s.data.isEmpty && s.data.all pyIsDigit

/-- Spec wording of claim C2: every lesson with a missing or non-numeric
pair appears after all numeric-pair lessons, that is, no numeric pair
follows a non-numeric one. -/
def specNonNumericLast (lst : List Lesson) : Bool :=
  (lst.dropWhile (fun x => specPairNumeric x.pair)).all
    (fun x => !specPairNumeric x.pair)

/-! Helper lemmas about the embedded operations. -/

theorem hasPre_hasSub (n l : List Char) (h : hasPre n l = true) :
    hasSub n l = true := by
  cases l with
  | nil => simpa [hasSub] using h
  | cons c cs => simp [hasSub, h]

theorem mem_insertSorted (x a : Lesson) (l : List Lesson) :
    a ∈ insertSorted x l ↔ a = x ∨ a ∈ l := by
  induction l with
  | nil => simp [insertSorted]
  | cons y ys ih =>
    by_cases h : sortKeyFn x ≤ sortKeyFn y
    · simp [insertSorted, h]
    · simp only [insertSorted, if_neg h, List.mem_cons, ih]
      tauto

theorem pairwise_insertSorted (x : Lesson) (l : List Lesson)
    (h : l.Pairwise (fun a b => sortKeyFn a ≤ sortKeyFn b)) :
    (insertSorted x l).Pairwise (fun a b => sortKeyFn a ≤ sortKeyFn b) := by
  induction l with
  | nil => simp [insertSorted]
  | cons y ys ih =>
    rcases List.pairwise_cons.mp h with ⟨hy, hys⟩
    by_cases hxy : sortKeyFn x ≤ sortKeyFn y
    · rw [insertSorted, if_pos hxy]
      refine List.pairwise_cons.mpr ⟨?_, h⟩
      intro b hb
      rcases List.mem_cons.mp hb with rfl | hb
      · exact hxy
      · exact le_trans hxy (hy b hb)
    · rw [insertSorted, if_neg hxy]
      refine List.pairwise_cons.mpr ⟨?_, ih hys⟩
      intro b hb
      rcases (mem_insertSorted x b ys).mp hb with rfl | hb
      · exact le_of_not_le hxy
      · exact hy b hb

theorem perm_insertSorted (x : Lesson) (l : List Lesson) :
    (insertSorted x l).Perm (x :: l) := by
  induction l with
  | nil => simp [insertSorted]
  | cons y ys ih =>
    by_cases h : sortKeyFn x ≤ sortKeyFn y
    · simp [insertSorted, h]
    · simp only [insertSorted, if_neg h]
      exact (ih.cons y).trans (List.Perm.swap x y ys)

theorem perm_sortByKey (l : List Lesson) : (sortByKey l).Perm l := by
  induction l with
  | nil => simp [sortByKey]
  | cons x xs ih =>
    exact (perm_insertSorted x (sortByKey xs)).trans (ih.cons x)

theorem pairwise_sortByKey (l : List Lesson) :
    (sortByKey l).Pairwise (fun a b => sortKeyFn a ≤ sortKeyFn b) := by
  induction l with
  | nil => simp [sortByKey]
  | cons x xs ih => exact pairwise_insertSorted x (sortByKey xs) ih

theorem filter_insertSorted (x : Lesson) (l : List Lesson) (c : Nat) :
    (insertSorted x l).filter (fun a => sortKeyFn a == c) =
      if sortKeyFn x == c then
        x :: l.filter (fun a => sortKeyFn a == c)
      else l.filter (fun a => sortKeyFn a == c) := by
  induction l with
  | nil => by_cases h : sortKeyFn x == c <;> simp [insertSorted, h]
  | cons y ys ih =>
    by_cases hxy : sortKeyFn x ≤ sortKeyFn y
    · by_cases hx : sortKeyFn x == c <;>
        simp [insertSorted, hxy, List.filter_cons, hx]
    · have hlt : sortKeyFn y < sortKeyFn x := lt_of_not_le hxy
      by_cases hx : sortKeyFn x == c
      · have hy : (sortKeyFn y == c) = false := by
          have hxc : sortKeyFn x = c := by simpa using hx
          have hne : sortKeyFn y ≠ c := by omega
          simpa using hne
        simp [insertSorted, hxy, List.filter_cons, hy, ih, hx]
      · by_cases hy : sortKeyFn y == c <;>
          simp [insertSorted, hxy, List.filter_cons, hy, ih, hx]

theorem filter_sortByKey (l : List Lesson) (c : Nat) :
    (sortByKey l).filter (fun a => sortKeyFn a == c) =
      l.filter (fun a => sortKeyFn a == c) := by
  induction l with
  | nil => simp [sortByKey]
  | cons x xs ih =>
    by_cases hx : sortKeyFn x == c <;>
      simp [sortByKey, filter_insertSorted, hx, List.filter_cons, ih]

theorem mem_buildSchedule (doc : List String) (u : List (PDate × Nat))
    (d : PDate) (lst : List Lesson) (h : (d, lst) ∈ buildSchedule doc u) :
    ∃ i stop, (d, i) ∈ u ∧ lst = lessonsFor doc d i stop := by
  induction u with
  | nil => simp [buildSchedule] at h
  | cons p rest ih =>
    obtain ⟨d0, i0⟩ := p
    simp only [buildSchedule, List.mem_cons] at h
    rcases h with h | h
    · rcases Prod.mk.injEq .. ▸ h with ⟨rfl, rfl⟩
      exact ⟨i0, _, List.mem_cons_self _ _, rfl⟩
    · obtain ⟨i, stop, hmem, hlst⟩ := ih h
      exact ⟨i, stop, List.mem_cons_of_mem _ hmem, hlst⟩

theorem extract_day (b : String) (cd : PDate) (l : Lesson)
    (h : extract_lesson_from_block b cd = some l) : l.day = cd := by
  simp only [extract_lesson_from_block] at h
  split at h
  · exact absurd h (by simp)
  · split at h <;> split at h <;>
      first
        | (rw [Option.some.injEq] at h; rw [← h])
        | exact absurd h (by simp)

theorem dedupFirstAux_sublist (seen : List PDate) (l : List (PDate × Nat)) :
    (dedupFirstAux seen l).Sublist l := by
  induction l generalizing seen with
  | nil => simp [dedupFirstAux]
  | cons x xs ih =>
    by_cases h : x.1 ∈ seen
    · simpa [dedupFirstAux, h] using (ih seen).cons x
    · simpa [dedupFirstAux, h] using (ih (x.1 :: seen)).cons₂ x

theorem dedupFirstAux_find (seen : List PDate) (l : List (PDate × Nat))
    (y : PDate × Nat) (h : y ∈ dedupFirstAux seen l) :
    y.1 ∉ seen ∧ l.find? (fun x => x.1 == y.1) = some y := by
  induction l generalizing seen with
  | nil => simp [dedupFirstAux] at h
  | cons x xs ih =>
    by_cases hx : x.1 ∈ seen
    · rw [dedupFirstAux, if_pos hx] at h
      obtain ⟨hns, hf⟩ := ih seen h
      have hne : ¬ (x.1 == y.1) = true := by
        intro hb
        have hbe : x.1 = y.1 := by simpa using hb
        exact hns (hbe ▸ hx)
      exact ⟨hns, by
        rw [@List.find?_cons_of_neg _ (fun z => z.1 == y.1) x xs hne, hf]⟩
    · rw [dedupFirstAux, if_neg hx] at h
      rcases List.mem_cons.mp h with rfl | h
      · exact ⟨hx, by
          rw [@List.find?_cons_of_pos _ (fun z => z.1 == y.1) y xs
            (by simp)]⟩
      · obtain ⟨hns, hf⟩ := ih (x.1 :: seen) h
        have hny : y.1 ∉ seen := fun hc => hns (List.mem_cons_of_mem _ hc)
        have hne : ¬ (x.1 == y.1) = true := by
          intro hb
          have hbe : x.1 = y.1 := by simpa using hb
          exact hns (hbe ▸ List.mem_cons_self _ _)
        exact ⟨hny, by
          rw [@List.find?_cons_of_neg _ (fun z => z.1 == y.1) x xs hne, hf]⟩

theorem dedupFirstAux_pairwise (seen : List PDate)
    (l : List (PDate × Nat)) :
    (dedupFirstAux seen l).Pairwise (fun a b => a.1 ≠ b.1) := by
  induction l generalizing seen with
  | nil => simp [dedupFirstAux]
  | cons x xs ih =>
    by_cases hx : x.1 ∈ seen
    · simpa [dedupFirstAux, hx] using ih seen
    · rw [dedupFirstAux, if_neg hx]
      refine List.pairwise_cons.mpr ⟨?_, ih (x.1 :: seen)⟩
      intro b hb
      have := (dedupFirstAux_find (x.1 :: seen) xs b hb).1
      intro hc
      exact this (hc ▸ List.mem_cons_self _ _)

theorem dedupFirstAux_covers (seen : List PDate) (l : List (PDate × Nat))
    (x : PDate × Nat) (h : x ∈ l) :
    x.1 ∈ seen ∨ ∃ y ∈ dedupFirstAux seen l, y.1 = x.1 := by
  induction l generalizing seen with
  | nil => simp at h
  | cons x0 xs ih =>
    rcases List.mem_cons.mp h with rfl | h
    · by_cases hx : x.1 ∈ seen
      · exact Or.inl hx
      · refine Or.inr ⟨x, ?_, rfl⟩
        rw [dedupFirstAux, if_neg hx]
        exact List.mem_cons_self _ _
    · by_cases hx0 : x0.1 ∈ seen
      · rcases ih seen h with hs | ⟨y, hy, hyx⟩
        · exact Or.inl hs
        · refine Or.inr ⟨y, ?_, hyx⟩
          rw [dedupFirstAux, if_pos hx0]
          exact hy
      · rcases ih (x0.1 :: seen) h with hs | ⟨y, hy, hyx⟩
        · rcases List.mem_cons.mp hs with heq | hs
          · refine Or.inr ⟨x0, ?_, heq.symm⟩
            rw [dedupFirstAux, if_neg hx0]
            exact List.mem_cons_self _ _
          · exact Or.inl hs
        · refine Or.inr ⟨y, ?_, hyx⟩
          rw [dedupFirstAux, if_neg hx0]
          exact List.mem_cons_of_mem _ hy

theorem findSomeAppendD {α β : Type} (f : α → Option β)
    (l1 l2 : List α) :
    (l1 ++ l2).findSome? f =
      match l1.findSome? f with
      | some r => some r
      | none => l2.findSome? f := by
  induction l1 with
  | nil => simp [List.findSome?]
  | cons a as ih =>
    rw [List.cons_append, List.findSome?_cons, List.findSome?_cons]
    cases f a with
    | some b => simp
    | none => simpa using ih

theorem ptFold_time (lines : List String) :
    ∀ p0 t0 : String,
      (lines.foldl ptStep (p0, t0)).2 =
        ((lines.reverse.findSome?
          (fun ln => (timeSearch ln.data).map fmtTime)).getD t0) := by
  induction lines with
  | nil => intro p0 t0; simp [List.findSome?]
  | cons x xs ih =>
    intro p0 t0
    rw [List.foldl_cons, List.reverse_cons,
      findSomeAppendD (fun ln => (timeSearch ln.data).map fmtTime)
        xs.reverse [x]]
    cases hf : xs.reverse.findSome? (fun ln => (timeSearch ln.data).map
        fmtTime) with
    | some r =>
      have := ih (ptStep (p0, t0) x).1 (ptStep (p0, t0) x).2
      rw [hf] at this
      simpa using this
    | none =>
      have := ih (ptStep (p0, t0) x).1 (ptStep (p0, t0) x).2
      rw [hf] at this
      simp only [Option.getD_none] at this ⊢
      rw [this]
      simp only [List.findSome?_cons, List.findSome?_nil, ptStep]
      cases ht : timeSearch x.data <;> simp [ht]

theorem map_fst_buildSchedule (doc : List String)
    (u : List (PDate × Nat)) :
    (buildSchedule doc u).map Prod.fst = u.map Prod.fst := by
  induction u with
  | nil => simp [buildSchedule]
  | cons p rest ih =>
    obtain ⟨d0, i0⟩ := p
    simp [buildSchedule, ih]

/-! Claim theorems. -/

/-- C1 counterexample: on a document whose only node is a date anchor with
no lesson blocks, parse_schedule stores that date with an empty lesson
list, so the mapping does contain a date whose lesson list is empty,
contrary to the claim. -/
theorem C1_counterexample :
    parse_schedule ["16.12.2025"] = [(⟨2025, 12, 16⟩, [])] ∧
    ¬ (∀ p ∈ parse_schedule ["16.12.2025"], p.2 ≠ []) := by
  constructor
  · decide
  · intro hall
    exact hall (⟨2025, 12, 16⟩, []) (by decide) rfl

/-- C1 amended: every deduplicated anchor date is present as a key of the
Schedule returned by parse_schedule, in anchor order; a date whose blocks
all fail assembly, or that has no blocks, is present with an empty lesson
list rather than removed. -/
theorem C1_amended (doc : List String) :
    (parse_schedule doc).map Prod.fst =
      (dedupFirst (dateNodes doc)).map Prod.fst :=
  map_fst_buildSchedule doc (dedupFirst (dateNodes doc))

/-- C2 counterexample: a block with numeric pair 1000 and a block with a
missing pair under one date; the code sorts the missing-pair lesson with
sentinel key 999 before the numeric pair 1000, so a lesson with a missing
pair precedes a numeric-pair lesson, contrary to the claim. -/
theorem C2_counterexample :
    (parse_schedule ["16.12.2025", "№ пары - 1000\nМатематика",
        "№ пары\nФизика"]).map (fun p => p.2.map Lesson.pair) =
      [["", "1000"]] ∧
    specPairNumeric "1000" = true ∧
    specPairNumeric "" = false ∧
    (parse_schedule ["16.12.2025", "№ пары - 1000\nМатематика",
        "№ пары\nФизика"]).all (fun p => specNonNumericLast p.2) =
      false := by
  refine ⟨by decide, by decide, by decide, by decide⟩

/-- C2 amended: the lesson list of every date is the stable sort of the
block-discovery list by the key that maps a numeric pair to its integer
value and a missing or non-numeric pair to 999: keys are non-decreasing,
and lessons with equal key keep their block-discovery order. -/
theorem C2_amended (doc : List String) (d : PDate) (lst : List Lesson)
    (h : (d, lst) ∈ parse_schedule doc) :
    ∃ i stop, lst = sortByKey (rawLessons doc d i stop) ∧
      lst.Pairwise (fun a b => sortKeyFn a ≤ sortKeyFn b) ∧
      ∀ c : Nat, lst.filter (fun x => sortKeyFn x == c) =
        (rawLessons doc d i stop).filter (fun x => sortKeyFn x == c) := by
  obtain ⟨i, stop, hmem, hlst⟩ :=
    mem_buildSchedule doc (dedupFirst (dateNodes doc)) d lst h
  refine ⟨i, stop, hlst, ?_, ?_⟩
  · rw [hlst]
    exact pairwise_sortByKey (rawLessons doc d i stop)
  · intro c
    rw [hlst]
    exact filter_sortByKey (rawLessons doc d i stop) c

/-- C2 amended, witness at a concrete document with two blocks whose pairs
are 2 and 1 in discovery order. -/
theorem C2_amended_witness :
    ∃ i stop,
      [(⟨⟨2025, 12, 16⟩, "1", "", "Математика", "", "", ""⟩ : Lesson),
        ⟨⟨2025, 12, 16⟩, "2", "", "Физика", "", "", ""⟩] =
        sortByKey (rawLessons ["16.12.2025", "№ пары - 2\nФизика",
          "№ пары - 1\nМатематика"] ⟨2025, 12, 16⟩ i stop) ∧
      ([(⟨⟨2025, 12, 16⟩, "1", "", "Математика", "", "", ""⟩ : Lesson),
        ⟨⟨2025, 12, 16⟩, "2", "", "Физика", "", "", ""⟩]).Pairwise
          (fun a b => sortKeyFn a ≤ sortKeyFn b) ∧
      ∀ c : Nat,
        ([(⟨⟨2025, 12, 16⟩, "1", "", "Математика", "", "", ""⟩ : Lesson),
          ⟨⟨2025, 12, 16⟩, "2", "", "Физика", "", "", ""⟩]).filter
            (fun x => sortKeyFn x == c) =
          (rawLessons ["16.12.2025", "№ пары - 2\nФизика",
            "№ пары - 1\nМатематика"] ⟨2025, 12, 16⟩ i stop).filter
            (fun x => sortKeyFn x == c) :=
  C2_amended ["16.12.2025", "№ пары - 2\nФизика",
    "№ пары - 1\nМатематика"] ⟨2025, 12, 16⟩
    [⟨⟨2025, 12, 16⟩, "1", "", "Математика", "", "", ""⟩,
      ⟨⟨2025, 12, 16⟩, "2", "", "Физика", "", "", ""⟩] (by decide)

/-- C3: extract_lesson_from_block returns a Lesson only when at least one
of subject, teacher, room, lesson type is non-empty, and a block holding
only a period-number line and a time-range line yields none even though
pair and time were extracted. -/
theorem C3_drop :
    (∀ (b : String) (cd : PDate) (l : Lesson),
        extract_lesson_from_block b cd = some l →
        ¬ (l.subject = "" ∧ l.teacher = "" ∧ l.room = "" ∧
            l.lesson_type = "")) ∧
    ∀ cd : PDate,
      extract_lesson_from_block "№ пары - 1\n09:00 - 10:30" cd = none := by
  constructor
  · intro b cd l h
    simp only [extract_lesson_from_block] at h
    split at h
    · exact absurd h (by simp)
    · split at h <;> split at h <;>
        first
          | (rw [Option.some.injEq] at h
             subst h
             rename_i hguard
             intro hc
             apply hguard
             simp only [Bool.and_eq_true, beq_iff_eq]
             exact ⟨⟨⟨hc.1, hc.2.1⟩, hc.2.2.1⟩, hc.2.2.2⟩)
          | exact absurd h (by simp)
  · intro cd
    rfl

/-- C3 witness: a block whose extraction succeeds has a non-empty
descriptive field. -/
theorem C3_drop_witness :
    ¬ ((⟨⟨2025, 12, 16⟩, "1", "", "Математика", "", "", ""⟩ : Lesson).subject
          = "" ∧
        (⟨⟨2025, 12, 16⟩, "1", "", "Математика", "", "", ""⟩ :
            Lesson).teacher = "" ∧
        (⟨⟨2025, 12, 16⟩, "1", "", "Математика", "", "", ""⟩ :
            Lesson).room = "" ∧
        (⟨⟨2025, 12, 16⟩, "1", "", "Математика", "", "", ""⟩ :
            Lesson).lesson_type = "") :=
  C3_drop.1 "№ пары - 1\nМатематика" ⟨2025, 12, 16⟩
    ⟨⟨2025, 12, 16⟩, "1", "", "Математика", "", "", ""⟩ (by decide)

/-- C4: parse_date returns a date only when the first DATE_RE match of the
string is a real calendar date, and an invalid first match such as
31.02.2025 gives none; in the embedding absence of an exception is the
totality of the function. -/
theorem C4_valid :
    (∀ (s : String) (d : PDate), parse_date s = some d →
        dateSearch s.data = some (d.day, d.month, d.year) ∧
        isRealDate d.year d.month d.day = true) ∧
    parse_date "31.02.2025" = none := by
  constructor
  · intro s d h
    simp only [parse_date] at h
    split at h
    · exact absurd h (by simp)
    · rename_i dd mm yy heq
      split at h
      · rw [Option.some.injEq] at h
        subst h
        rename_i hreal
        exact ⟨heq, hreal⟩
      · exact absurd h (by simp)
  · decide

/-- C4 witness: a valid first match is returned and is a real calendar
date. -/
theorem C4_valid_witness :
    dateSearch "16.12.2025".data = some (16, 12, 2025) ∧
    isRealDate 2025 12 16 = true :=
  C4_valid.1 "16.12.2025" ⟨2025, 12, 16⟩ (by decide)

/-- C5 counterexample: the line with two words and the substring ич only
in the interior of a word is classified as teacher by the code, although
it has no teacher-indicator token and no token ending in a patronymic
suffix, contrary to the claim. -/
theorem C5_counterexample :
    (classifyLine ⟨"", "", "", ""⟩ "величина предела").teacher =
      "величина предела" ∧
    hasSub [ 'п', 'р', 'е', 'п' ]
      (pyLowerStr "величина предела").data = false ∧
    specTokenEndsWithPatronymic "величина предела" = false := by
  refine ⟨by decide, by decide, by decide⟩

/-- C5 amended: a line changes the teacher field only when it contains the
teacher-indicator token, or consists of at least two words and contains
one of the patronymic suffixes as a substring anywhere in the line, not
necessarily at the end of a token. -/
theorem C5_amended (st : CFields) (ln : String)
    (h : (classifyLine st ln).teacher ≠ st.teacher) :
    hasSub [ 'п', 'р', 'е', 'п' ] (pyLowerStr ln).data = true ∨
      (2 ≤ (pyWords ln.data).length ∧
        (teacherSuffixes.any
          (fun suf => hasSub suf.data (pyLowerStr ln).data)) = true) := by
  simp only [classifyLine] at h
  by_cases c1 :
      ((pairSearch ln.data).isSome || (timeSearch ln.data).isSome) = true
  · rw [if_pos c1] at h
    exact absurd rfl h
  · rw [if_neg c1] at h
    by_cases c2 : (hasPre [ 'а', 'у', 'д' ] (pyLowerStr ln).data ||
        hasSub [ 'а', 'у', 'д', '.' ] (pyLowerStr ln).data) = true
    · rw [if_pos c2] at h
      simp at h
    · rw [if_neg c2] at h
      by_cases c3 :
          (typeKeywords.any
            (fun x => hasSub x.data (pyLowerStr ln).data)) = true
      · rw [if_pos c3] at h
        split at h <;> simp at h
      · rw [if_neg c3] at h
        by_cases c4 : (st.teacher == "" &&
            (hasPre [ 'п', 'р', 'е', 'п' ] (pyLowerStr ln).data ||
              hasSub [ 'п', 'р', 'е', 'п' ] (pyLowerStr ln).data)) = true
        · left
          have hor := (Bool.and_eq_true _ _).mp c4 |>.2
          rcases (Bool.or_eq_true _ _).mp hor with hp | hs
          · exact hasPre_hasSub _ _ hp
          · exact hs
        · rw [if_neg c4] at h
          by_cases c5 : (st.teacher == "" &&
              decide (2 ≤ (pyWords ln.data).length) &&
              (teacherSuffixes.any
                (fun suf => hasSub suf.data (pyLowerStr ln).data))) = true
          · right
            have h1 := (Bool.and_eq_true _ _).mp c5
            exact ⟨of_decide_eq_true ((Bool.and_eq_true _ _).mp h1.1).2,
              h1.2⟩
          · rw [if_neg c5] at h
            by_cases c6 : (st.subject == "") = true
            · rw [if_pos c6] at h
              simp at h
            · rw [if_neg c6] at h
              exact absurd rfl h

/-- C5 amended, witness: a line carrying the teacher-indicator token does
set the teacher field, and the theorem yields the indicator disjunct. -/
theorem C5_amended_witness :
    hasSub [ 'п', 'р', 'е', 'п' ]
      (pyLowerStr "Преподаватель: Иванова А.П.").data = true ∨
      (2 ≤ (pyWords "Преподаватель: Иванова А.П.".data).length ∧
        (teacherSuffixes.any (fun suf => hasSub suf.data
          (pyLowerStr "Преподаватель: Иванова А.П.").data)) = true) :=
  C5_amended ⟨"", "", "", ""⟩ "Преподаватель: Иванова А.П." (by decide)

/-- C6 counterexample: a room line whose only separator is a colon keeps
the whole line as the room value in the code, while the claim says the
text after the first colon is taken. -/
theorem C6_counterexample :
    (classifyLine ⟨"", "", "", ""⟩ "Аудитория: 101").room =
      "Аудитория: 101" ∧
    specRoomValueC6 "Аудитория: 101" = "101" ∧
    "Аудитория: 101" ≠ specRoomValueC6 "Аудитория: 101" := by
  refine ⟨by decide, by decide, by decide⟩

/-- C6 amended: a classified line, one matching neither the pair nor the
time pattern, that starts with the room token or contains the dotted room
token sets the room field to the stripped text after the first period when
the line contains a period and that text is non-empty, and to the whole
line otherwise; a colon is not a separator. -/
theorem C6_amended (st : CFields) (ln : String)
    (h1 : ((pairSearch ln.data).isSome || (timeSearch ln.data).isSome) =
      false)
    (h2 : (hasPre [ 'а', 'у', 'д' ] (pyLowerStr ln).data ||
        hasSub [ 'а', 'у', 'д', '.' ] (pyLowerStr ln).data) = true) :
    (classifyLine st ln).room =
      if hasChar '.' ln then
        (if String.mk (pyStrip (afterFirst '.' ln.data)) ≠ "" then
          String.mk (pyStrip (afterFirst '.' ln.data))
        else ln)
      else ln := by
  simp only [classifyLine]
  rw [if_neg (by simp [h1]), if_pos h2]
  by_cases hdot : hasChar '.' ln = true
  · simp [hdot]
  · simp [hdot]

/-- C6 amended, witness: a dotted room line takes the stripped text after
the first period. -/
theorem C6_amended_witness :
    (classifyLine ⟨"", "", "", ""⟩ "Ауд. 318В").room =
      if hasChar '.' "Ауд. 318В" then
        (if String.mk (pyStrip (afterFirst '.' "Ауд. 318В".data)) ≠ ""
          then String.mk (pyStrip (afterFirst '.' "Ауд. 318В".data))
        else "Ауд. 318В")
      else "Ауд. 318В" :=
  C6_amended ⟨"", "", "", ""⟩ "Ауд. 318В" (by decide) (by decide)

/-- C7 counterexample: a time-range line that is not immediately after the
period-marker line is still consumed as the time of the block by the code,
while the spec wording yields an empty time for this block. -/
theorem C7_counterexample :
    (extract_lesson_from_block "№ пары - 1\nМатематика\n10:00 - 11:30"
        ⟨2025, 12, 16⟩).map Lesson.time = some "10:00–11:30" ∧
    specC7TimeOf (clean_lines "№ пары - 1\nМатематика\n10:00 - 11:30") =
      "" := by
  refine ⟨by decide, by decide⟩

/-- C7 amended: the time of a block is taken from the last line anywhere
in the block that matches the time-range pattern, not only from the line
immediately after the period marker; and every line matching the pair or
time pattern leaves the classification state unchanged, so a time-range
line is never classified as subject, teacher, room or lesson type. -/
theorem C7_amended :
    (∀ lines : List String,
      (extractPT lines).2 =
        ((lines.reverse.findSome?
          (fun ln => (timeSearch ln.data).map fmtTime)).getD "")) ∧
    ∀ (st : CFields) (ln : String),
      ((pairSearch ln.data).isSome || (timeSearch ln.data).isSome) =
        true →
      classifyLine st ln = st := by
  constructor
  · intro lines
    simpa [extractPT] using ptFold_time lines "" ""
  · intro st ln h
    simp only [classifyLine]
    rw [if_pos h]

/-- C7 amended, witness: a time-range line leaves the classification state
unchanged. -/
theorem C7_amended_witness :
    classifyLine ⟨"x", "", "", ""⟩ "09:00 - 10:30" = ⟨"x", "", "", ""⟩ :=
  C7_amended.2 ⟨"x", "", "", ""⟩ "09:00 - 10:30" (by decide)

/-- C8: when no node of the document carries a valid date anchor,
parse_schedule returns the empty Schedule; in the embedding the function
is total, so no error is raised. -/
theorem C8_empty (doc : List String) (h : dateNodes doc = []) :
    parse_schedule doc = [] := by
  unfold parse_schedule
  rw [h]
  rfl

/-- C8 witness: the empty document has no anchors and yields the empty
Schedule. -/
theorem C8_empty_witness :
    dateNodes ([] : List String) = [] ∧
      parse_schedule ([] : List String) = [] :=
  ⟨rfl, C8_empty [] rfl⟩

/-- C9: anchor deduplication keeps a subsequence of the date nodes in
document order, with pairwise distinct dates, covering every date that
occurs, and every kept anchor is the first occurrence of its date. -/
theorem C9_dedup (doc : List String) :
    (dedupFirst (dateNodes doc)).Sublist (dateNodes doc) ∧
    (dedupFirst (dateNodes doc)).Pairwise (fun a b => a.1 ≠ b.1) ∧
    (∀ x ∈ dateNodes doc,
      ∃ y ∈ dedupFirst (dateNodes doc), y.1 = x.1) ∧
    ∀ y ∈ dedupFirst (dateNodes doc),
      (dateNodes doc).find? (fun x => x.1 == y.1) = some y := by
  refine ⟨dedupFirstAux_sublist [] (dateNodes doc),
    dedupFirstAux_pairwise [] (dateNodes doc), ?_, ?_⟩
  · intro x hx
    rcases dedupFirstAux_covers [] (dateNodes doc) x hx with hs | hy
    · simp at hs
    · exact hy
  · intro y hy
    exact (dedupFirstAux_find [] (dateNodes doc) y hy).2

/-- C9 witness: on a document repeating a date, the kept anchor of that
date is its first occurrence. -/
theorem C9_dedup_witness :
    (dateNodes ["16.12.2025", "тоже 16.12.2025", "17.12.2025"]).find?
        (fun x => x.1 == ((⟨2025, 12, 16⟩, 0) : PDate × Nat).1) =
      some (⟨2025, 12, 16⟩, 0) :=
  (C9_dedup ["16.12.2025", "тоже 16.12.2025", "17.12.2025"]).2.2.2
    (⟨2025, 12, 16⟩, 0) (by decide)

/-- C10: every lesson stored under a date carries that date in its day
field. -/
theorem C10_day (doc : List String) (d : PDate) (lst : List Lesson)
    (h : (d, lst) ∈ parse_schedule doc) :
    ∀ l ∈ lst, l.day = d := by
  intro l hl
  obtain ⟨i, stop, hmem, hlst⟩ :=
    mem_buildSchedule doc (dedupFirst (dateNodes doc)) d lst h
  rw [hlst] at hl
  have hl2 : l ∈ rawLessons doc d i stop :=
    ((perm_sortByKey (rawLessons doc d i stop)).mem_iff).mp
      (by simpa [lessonsFor] using hl)
  obtain ⟨b, hb, he⟩ := List.mem_filterMap.mp hl2
  exact extract_day b d l he

/-- C10 witness: the single extracted lesson of a concrete document
carries the date it is stored under. -/
theorem C10_day_witness :
    (⟨⟨2025, 12, 16⟩, "1", "", "Математика", "", "", ""⟩ : Lesson).day =
      ⟨2025, 12, 16⟩ :=
  C10_day ["16.12.2025", "№ пары - 1\nМатематика"] ⟨2025, 12, 16⟩
    [⟨⟨2025, 12, 16⟩, "1", "", "Математика", "", "", ""⟩] (by decide)
    ⟨⟨2025, 12, 16⟩, "1", "", "Математика", "", "", ""⟩ (by decide)

end MguuBot
